import Mathlib

/-!
# TextEditor: state and history logic of `src/components/TextEditor.jsx`

A shallow embedding of the React component's four state cells
(`textBoxes`, `selectedBox`, `history`, `historyIndex`) and of its event
handlers as pure functions on an explicit state record.  Every handler runs
to completion on the state of the latest render, so one handler call is one
atomic transition.

JavaScript numbers that the component stores (`id`, `x`, `y`, `fontSize`,
`historyIndex`) are integer valued and far from 2^53; they are modelled as
`Int`.  `Date.now()` is modelled as an explicit argument `now`.
-/

namespace TextEditor

/-! ## Data model -/

/-- One text box record, with the ten properties written by `addTextBox`. -/
structure TextBox where
  id : Int
  text : String
  x : Int
  y : Int
  fontSize : Int
  fontFamily : String
  isBold : Bool
  isItalic : Bool
  isUnderline : Bool
  alignCenter : Bool
  deriving DecidableEq, Repr

/-- The property names the toolbar passes to `toggleStyle`. -/
inductive StyleKey where
  | isBold
  | isItalic
  | isUnderline
  deriving DecidableEq, Repr

/-- The four `useState` cells of the component. `selectedBox = none` is the
JavaScript `null`. -/
structure EditorState where
  textBoxes : List TextBox
  selectedBox : Option Int
  history : List (List TextBox)
  historyIndex : Int
  deriving DecidableEq, Repr

/-- The values given to `useState` on the first render (lines 30-33). -/
def initialState : EditorState :=
  { textBoxes := [], selectedBox := none, history := [], historyIndex := -1 }

/-! ## JavaScript array primitives used by the handlers -/

/-- Clamping of a relative index as done by `Array.prototype.slice`: a negative
index counts from the end, and the result is clamped to `[0, len]`. -/
def jsRelIndex (len : Nat) (i : Int) : Nat :=
  if i < 0 then (max ((len : Int) + i) 0).toNat else (min i (len : Int)).toNat

/-- The array method `xs.slice(start, end)`. -/
def jsSlice {α : Type} (xs : List α) (start stop : Int) : List α :=
  let k := jsRelIndex xs.length start
  let final := jsRelIndex xs.length stop
  (xs.drop k).take (final - k)

/-- The element access `xs[i]` for an integer `i`; `none` is `undefined`. -/
def jsIndex {α : Type} (xs : List α) (i : Int) : Option α :=
  if 0 ≤ i then xs.get? i.toNat else none

/-! ## Handlers -/

/-- Lines 108-113: `addToHistory`. It reads `history` and `historyIndex` of the
current render and writes both. -/
def addToHistory (newState : List TextBox) (s : EditorState) : EditorState :=
  let newHistory := jsSlice s.history 0 (s.historyIndex + 1) ++ [newState]
  { s with history := newHistory, historyIndex := (newHistory.length : Int) - 1 }

/-- Lines 36-47: the record literal `newBox`, with `Date.now()` as `now`. -/
def newBox (now : Int) : TextBox :=
  { id := now, text := "New Text", x := 50, y := 50, fontSize := 16,
    fontFamily := "Arial", isBold := false, isItalic := false,
    isUnderline := false, alignCenter := false }

/-- Lines 35-52: `addTextBox`. -/
def addTextBox (now : Int) (s : EditorState) : EditorState :=
  let newTextBoxes := s.textBoxes ++ [newBox now]
  addToHistory newTextBoxes
    { s with textBoxes := newTextBoxes, selectedBox := some (newBox now).id }

/-- Lines 54-61: `handleTextChange`, with `e.target.value` as `value`. It does
not call `addToHistory`. -/
def handleTextChange (value : String) (s : EditorState) : EditorState :=
  match s.selectedBox with
  | some sel =>
    let newTextBoxes := s.textBoxes.map
      (fun box => if box.id = sel then { box with text := value } else box)
    { s with textBoxes := newTextBoxes }
  | none => s

/-- Reading `box[style]`. -/
def TextBox.getStyle (box : TextBox) : StyleKey → Bool
  | .isBold => box.isBold
  | .isItalic => box.isItalic
  | .isUnderline => box.isUnderline

/-- The record `{ ...box, [style]: v }`. -/
def TextBox.setStyle (box : TextBox) (style : StyleKey) (v : Bool) : TextBox :=
  match style with
  | .isBold => { box with isBold := v }
  | .isItalic => { box with isItalic := v }
  | .isUnderline => { box with isUnderline := v }

/-- Lines 63-71: `toggleStyle`. -/
def toggleStyle (style : StyleKey) (s : EditorState) : EditorState :=
  match s.selectedBox with
  | some sel =>
    let newTextBoxes := s.textBoxes.map
      (fun box => if box.id = sel then box.setStyle style (!box.getStyle style) else box)
    addToHistory newTextBoxes { s with textBoxes := newTextBoxes }
  | none => s

/-- Lines 73-86: `changeFontSize`. -/
def changeFontSize (delta : Int) (s : EditorState) : EditorState :=
  match s.selectedBox with
  | some sel =>
    let newTextBoxes := s.textBoxes.map
      (fun box =>
        if box.id = sel then
          { box with fontSize := max 8 (min 72 (box.fontSize + delta)) }
        else box)
    addToHistory newTextBoxes { s with textBoxes := newTextBoxes }
  | none => s

/-- Lines 88-96: `changeFontFamily`. -/
def changeFontFamily (fontFamily : String) (s : EditorState) : EditorState :=
  match s.selectedBox with
  | some sel =>
    let newTextBoxes := s.textBoxes.map
      (fun box => if box.id = sel then { box with fontFamily := fontFamily } else box)
    addToHistory newTextBoxes { s with textBoxes := newTextBoxes }
  | none => s

/-- Lines 98-106: `toggleAlignCenter`. -/
def toggleAlignCenter (s : EditorState) : EditorState :=
  match s.selectedBox with
  | some sel =>
    let newTextBoxes := s.textBoxes.map
      (fun box => if box.id = sel then { box with alignCenter := !box.alignCenter } else box)
    addToHistory newTextBoxes { s with textBoxes := newTextBoxes }
  | none => s

/-- Lines 160-166: the `onStop` callback of the `Draggable` rendered for the box
with id `boxId`, with `data.x`, `data.y` as `x`, `y`. -/
def dragStop (boxId x y : Int) (s : EditorState) : EditorState :=
  let newTextBoxes := s.textBoxes.map
    (fun tb => if tb.id = boxId then { tb with x := x, y := y } else tb)
  addToHistory newTextBoxes { s with textBoxes := newTextBoxes }

/-- Line 179: the `onMouseDown` callback of the box with id `boxId`. -/
def mouseDown (boxId : Int) (s : EditorState) : EditorState :=
  { s with selectedBox := some boxId }

/-- Lines 115-120: `undo`. The result is `none` when `history[historyIndex - 1]`
is `undefined`: `textBoxes` is then no array and the next render throws. -/
def undo (s : EditorState) : Option EditorState :=
  if s.historyIndex > 0 then
    (jsIndex s.history (s.historyIndex - 1)).map
      (fun snap => { s with historyIndex := s.historyIndex - 1, textBoxes := snap })
  else some s

/-- Lines 122-127: `redo`. The result is `none` when `history[historyIndex + 1]`
is `undefined`, as for `undo`. -/
def redo (s : EditorState) : Option EditorState :=
  if s.historyIndex < (s.history.length : Int) - 1 then
    (jsIndex s.history (s.historyIndex + 1)).map
      (fun snap => { s with historyIndex := s.historyIndex + 1, textBoxes := snap })
  else some s

/-! ## Commands and reachable states -/

/-- The events the rendered component reacts to. -/
inductive Command where
  | addTextBox (now : Int)
  | handleTextChange (value : String)
  | toggleStyle (style : StyleKey)
  | changeFontSize (delta : Int)
  | changeFontFamily (fontFamily : String)
  | toggleAlignCenter
  | dragStop (boxId x y : Int)
  | mouseDown (boxId : Int)
  | undo
  | redo
  deriving DecidableEq, Repr

/-- The ids of the boxes of a Box Store, in order. -/
def boxIds (boxes : List TextBox) : List Int :=
  boxes.map (fun box => box.id)

/-- The font sizes of the boxes of a Box Store, in order. -/
def boxFontSizes (boxes : List TextBox) : List Int :=
  boxes.map (fun box => box.fontSize)

/-- Whether the event can be dispatched in state `s`: the drag and mouse-down
callbacks exist only for a box rendered from `textBoxes` (lines 155-184). The
toolbar callbacks are always callable; their own guards are in the handlers. -/
def enabled (s : EditorState) : Command → Bool
  | .dragStop boxId _ _ => decide (boxId ∈ boxIds s.textBoxes)
  | .mouseDown boxId => decide (boxId ∈ boxIds s.textBoxes)
  | _ => true

/-- The handler run by each event. -/
def step (s : EditorState) : Command → Option EditorState
  | .addTextBox now => some (addTextBox now s)
  | .handleTextChange value => some (handleTextChange value s)
  | .toggleStyle style => some (toggleStyle style s)
  | .changeFontSize delta => some (changeFontSize delta s)
  | .changeFontFamily fontFamily => some (changeFontFamily fontFamily s)
  | .toggleAlignCenter => some (toggleAlignCenter s)
  | .dragStop boxId x y => some (dragStop boxId x y s)
  | .mouseDown boxId => some (mouseDown boxId s)
  | .undo => undo s
  | .redo => redo s

/-- Running a sequence of events from `s`; `none` when an event is not
dispatchable where it stands or a handler leaves `textBoxes` undefined. -/
def runTrace (s : EditorState) : List Command → Option EditorState
  | [] => some s
  | c :: cs =>
    if enabled s c then (step s c).bind (fun s' => runTrace s' cs) else none

/-- A state the component can be in: the result of some event sequence from the
initial render. -/
def Reachable (s : EditorState) : Prop :=
  ∃ cs : List Command, runTrace initialState cs = some s

/-- The history-aware operations that take effect in state `s`: addTextBox; the
style, font and alignment commands with a selection set; a completed drag; undo
with `historyIndex > 0`; redo with `historyIndex < history.length - 1`. -/
def historyAwareEffect (s : EditorState) : Command → Bool
  | .addTextBox _ => true
  | .handleTextChange _ => false
  | .toggleStyle _ => s.selectedBox.isSome
  | .changeFontSize _ => s.selectedBox.isSome
  | .changeFontFamily _ => s.selectedBox.isSome
  | .toggleAlignCenter => s.selectedBox.isSome
  | .dragStop _ _ _ => true
  | .mouseDown _ => false
  | .undo => decide (s.historyIndex > 0)
  | .redo => decide (s.historyIndex < (s.history.length : Int) - 1)

/-- The state after `addTextBox` with clock value 1, `toggleStyle("isBold")` and
typing "Hello" into the text input. -/
def typedState : EditorState :=
  { textBoxes := [{ newBox 1 with isBold := true, text := "Hello" }],
    selectedBox := some 1,
    history := [[newBox 1], [{ newBox 1 with isBold := true }]],
    historyIndex := 1 }

/-- The clock values read by the `addTextBox` events of a sequence, in order. -/
def clockValues : List Command → List Int
  | [] => []
  | .addTextBox now :: cs => now :: clockValues cs
  | _ :: cs => clockValues cs

/-- Whether an undo has been issued since the selection was last written, after
the event `c`, given the answer `flag` before it: `addTextBox` and a mouse-down
on a box write `selectedBox`, `undo` sets the flag, other events keep it. -/
def undoPending (flag : Bool) : Command → Bool
  | .undo => true
  | .addTextBox _ => false
  | .mouseDown _ => false
  | _ => flag

/-- The flag `undoPending` carried along an event sequence. -/
def undoSinceSelectionFrom (flag : Bool) : List Command → Bool
  | [] => flag
  | c :: cs => undoSinceSelectionFrom (undoPending flag c) cs

/-- Whether the event sequence contains an undo after its last event that
writes `selectedBox` (or contains an undo and no such event). -/
def undoSinceSelection (cs : List Command) : Bool :=
  undoSinceSelectionFrom false cs

/-! ## State predicates used by the invariants -/

/-- The cursor is inside the history or is -1. -/
def CursorInRange (s : EditorState) : Prop :=
  -1 ≤ s.historyIndex ∧ s.historyIndex < (s.history.length : Int)

/-- The selection, when set, is the id of a box of the Box Store. -/
def SelectionPresent (s : EditorState) : Prop :=
  ∀ sel, s.selectedBox = some sel → sel ∈ boxIds s.textBoxes

/-- The shape of the history in reachable states: the cursor is in range, the
entry at the cursor has the ids of the Box Store, the ids of each entry are a
prefix of the ids of the next entry, and before the first recording the Box
Store is empty. -/
def HistoryGrows (s : EditorState) : Prop :=
  CursorInRange s ∧
  (∀ snap, jsIndex s.history s.historyIndex = some snap →
    boxIds snap = boxIds s.textBoxes) ∧
  (∀ (k : Nat) (a b : List TextBox), s.history[k]? = some a →
    s.history[k + 1]? = some b → boxIds a <+: boxIds b) ∧
  (s.historyIndex < 0 → s.textBoxes = [])

/-- An id that occurs in the Box Store or in some history entry. -/
def KnownId (s : EditorState) (id : Int) : Prop :=
  id ∈ boxIds s.textBoxes ∨ ∃ snap ∈ s.history, id ∈ boxIds snap

/-- The Box Store and every history entry have pairwise distinct ids. -/
def IdsDistinct (s : EditorState) : Prop :=
  (boxIds s.textBoxes).Nodup ∧ ∀ snap ∈ s.history, (boxIds snap).Nodup

/-! ## Basic facts about the array primitives -/

theorem jsRelIndex_of_range (len : Nat) (i : Int) (h0 : 0 ≤ i) (h1 : i ≤ len) :
    jsRelIndex len i = i.toNat := by
  unfold jsRelIndex
  rw [if_neg (by omega), min_eq_left h1]

theorem jsSlice_zero {α : Type} (xs : List α) (stop : Int) :
    jsSlice xs 0 stop = xs.take (jsRelIndex xs.length stop) := by
  simp [jsSlice, jsRelIndex]

theorem jsSlice_zero_of_range {α : Type} (xs : List α) (stop : Int)
    (h0 : 0 ≤ stop) (h1 : stop ≤ xs.length) :
    jsSlice xs 0 stop = xs.take stop.toNat := by
  rw [jsSlice_zero, jsRelIndex_of_range _ _ h0 h1]

theorem jsIndex_natCast {α : Type} (xs : List α) (n : Nat) :
    jsIndex xs (n : Int) = xs.get? n := by
  simp [jsIndex]

theorem jsIndex_append_last {α : Type} (xs : List α) (a : α) :
    jsIndex (xs ++ [a]) (((xs ++ [a]).length : Int) - 1) = some a := by
  have h : (((xs ++ [a]).length : Int) - 1) = ((xs.length : Nat) : Int) := by
    simp
  rw [h, jsIndex_natCast]
  simp

/-! ## Basic facts about `addToHistory` -/

theorem addToHistory_history (n : List TextBox) (s : EditorState) :
    (addToHistory n s).history = jsSlice s.history 0 (s.historyIndex + 1) ++ [n] := rfl

theorem addToHistory_historyIndex (n : List TextBox) (s : EditorState) :
    (addToHistory n s).historyIndex = ((addToHistory n s).history.length : Int) - 1 := rfl

theorem addToHistory_textBoxes (n : List TextBox) (s : EditorState) :
    (addToHistory n s).textBoxes = s.textBoxes := rfl

theorem addToHistory_selectedBox (n : List TextBox) (s : EditorState) :
    (addToHistory n s).selectedBox = s.selectedBox := rfl

theorem addToHistory_at_cursor (n : List TextBox) (s : EditorState) :
    jsIndex (addToHistory n s).history (addToHistory n s).historyIndex = some n := by
  rw [addToHistory_historyIndex, addToHistory_history]
  exact jsIndex_append_last _ _

theorem addToHistory_length_pos (n : List TextBox) (s : EditorState) :
    0 < (addToHistory n s).history.length := by
  rw [addToHistory_history]; simp

/-! ## Invariants along event sequences -/

theorem runTrace_invariant (P : EditorState → Prop)
    (hstep : ∀ s c s', P s → enabled s c = true → step s c = some s' → P s') :
    ∀ (cs : List Command) (s s' : EditorState),
      P s → runTrace s cs = some s' → P s' := by
  intro cs
  induction cs with
  | nil =>
    intro s s' hP h
    simp only [runTrace, Option.some.injEq] at h
    exact h ▸ hP
  | cons c cs ih =>
    intro s s' hP h
    simp only [runTrace] at h
    split at h
    · rename_i hen
      cases hs : step s c with
      | none => rw [hs] at h; simp at h
      | some s1 =>
        rw [hs] at h
        simp only [Option.some_bind] at h
        exact ih s1 s' (hstep s c s1 hP hen hs) h
    · simp at h

theorem reachable_invariant (P : EditorState → Prop) (h0 : P initialState)
    (hstep : ∀ s c s', P s → enabled s c = true → step s c = some s' → P s')
    (s : EditorState) (h : Reachable s) : P s := by
  obtain ⟨cs, hcs⟩ := h
  exact runTrace_invariant P hstep cs initialState s h0 hcs

theorem cursorInRange_addToHistory (n : List TextBox) (s : EditorState) :
    CursorInRange (addToHistory n s) := by
  have h := addToHistory_length_pos n s
  unfold CursorInRange
  rw [addToHistory_historyIndex]
  omega

theorem jsIndex_isSome {α : Type} (xs : List α) (i : Int) (h0 : 0 ≤ i)
    (h1 : i < (xs.length : Int)) : ∃ a, jsIndex xs i = some a := by
  have hlt : i.toNat < xs.length := by omega
  refine ⟨xs.get ⟨i.toNat, hlt⟩, ?_⟩
  simp [jsIndex, h0, List.get?_eq_get hlt]

theorem undo_eq_some (s s' : EditorState) (h : undo s = some s') :
    (s' = s ∧ ¬ s.historyIndex > 0) ∨
    (s.historyIndex > 0 ∧ ∃ snap, jsIndex s.history (s.historyIndex - 1) = some snap ∧
      s' = { s with historyIndex := s.historyIndex - 1, textBoxes := snap }) := by
  unfold undo at h
  split at h
  · rename_i hpos
    right
    refine ⟨hpos, ?_⟩
    cases hj : jsIndex s.history (s.historyIndex - 1) with
    | none => rw [hj] at h; simp at h
    | some snap =>
      rw [hj] at h
      simp only [Option.map_some', Option.some.injEq] at h
      exact ⟨snap, rfl, h.symm⟩
  · rename_i hn
    left
    simp only [Option.some.injEq] at h
    exact ⟨h.symm, hn⟩

theorem redo_eq_some (s s' : EditorState) (h : redo s = some s') :
    (s' = s ∧ ¬ s.historyIndex < (s.history.length : Int) - 1) ∨
    (s.historyIndex < (s.history.length : Int) - 1 ∧
      ∃ snap, jsIndex s.history (s.historyIndex + 1) = some snap ∧
      s' = { s with historyIndex := s.historyIndex + 1, textBoxes := snap }) := by
  unfold redo at h
  split at h
  · rename_i hpos
    right
    refine ⟨hpos, ?_⟩
    cases hj : jsIndex s.history (s.historyIndex + 1) with
    | none => rw [hj] at h; simp at h
    | some snap =>
      rw [hj] at h
      simp only [Option.map_some', Option.some.injEq] at h
      exact ⟨snap, rfl, h.symm⟩
  · rename_i hn
    left
    simp only [Option.some.injEq] at h
    exact ⟨h.symm, hn⟩

theorem cursorInRange_step (s : EditorState) (c : Command) (s' : EditorState)
    (hP : CursorInRange s) (hs : step s c = some s') : CursorInRange s' := by
  cases c with
  | addTextBox now =>
    simp only [step, Option.some.injEq] at hs
    subst hs
    exact cursorInRange_addToHistory _ _
  | handleTextChange value =>
    simp only [step, Option.some.injEq] at hs
    subst hs
    unfold handleTextChange
    cases hsel : s.selectedBox <;> exact hP
  | toggleStyle style =>
    simp only [step, Option.some.injEq] at hs
    subst hs
    unfold toggleStyle
    cases hsel : s.selectedBox
    · exact hP
    · exact cursorInRange_addToHistory _ _
  | changeFontSize delta =>
    simp only [step, Option.some.injEq] at hs
    subst hs
    unfold changeFontSize
    cases hsel : s.selectedBox
    · exact hP
    · exact cursorInRange_addToHistory _ _
  | changeFontFamily fontFamily =>
    simp only [step, Option.some.injEq] at hs
    subst hs
    unfold changeFontFamily
    cases hsel : s.selectedBox
    · exact hP
    · exact cursorInRange_addToHistory _ _
  | toggleAlignCenter =>
    simp only [step, Option.some.injEq] at hs
    subst hs
    unfold toggleAlignCenter
    cases hsel : s.selectedBox
    · exact hP
    · exact cursorInRange_addToHistory _ _
  | dragStop boxId x y =>
    simp only [step, Option.some.injEq] at hs
    subst hs
    exact cursorInRange_addToHistory _ _
  | mouseDown boxId =>
    simp only [step, Option.some.injEq] at hs
    subst hs
    exact hP
  | undo =>
    simp only [step] at hs
    rcases undo_eq_some s s' hs with ⟨rfl, _⟩ | ⟨hpos, snap, _, rfl⟩
    · exact hP
    · unfold CursorInRange at hP ⊢
      simp only
      omega
  | redo =>
    simp only [step] at hs
    rcases redo_eq_some s s' hs with ⟨rfl, _⟩ | ⟨hpos, snap, _, rfl⟩
    · exact hP
    · unfold CursorInRange at hP ⊢
      simp only
      omega

theorem cursorInRange_of_reachable (s : EditorState) (h : Reachable s) :
    CursorInRange s :=
  reachable_invariant CursorInRange (by unfold CursorInRange initialState; simp)
    (fun s c s' hP _ hs => cursorInRange_step s c s' hP hs) s h

/-- In a state with the cursor in range, no handler leaves `textBoxes`
undefined. -/
theorem step_isSome (s : EditorState) (c : Command) (hP : CursorInRange s) :
    ∃ s', step s c = some s' := by
  cases c with
  | undo =>
    simp only [step, undo]
    split
    · rename_i hpos
      obtain ⟨a, ha⟩ := jsIndex_isSome s.history (s.historyIndex - 1)
        (by omega) (by unfold CursorInRange at hP; omega)
      exact ⟨_, by rw [ha]; rfl⟩
    · exact ⟨s, rfl⟩
  | redo =>
    simp only [step, redo]
    split
    · rename_i hpos
      obtain ⟨a, ha⟩ := jsIndex_isSome s.history (s.historyIndex + 1)
        (by unfold CursorInRange at hP; omega) (by omega)
      exact ⟨_, by rw [ha]; rfl⟩
    · exact ⟨s, rfl⟩
  | _ => exact ⟨_, rfl⟩

/-! ## How a step changes ids and history entries -/

theorem boxIds_map_of_id (f : TextBox → TextBox) (hf : ∀ b, (f b).id = b.id)
    (xs : List TextBox) : boxIds (xs.map f) = boxIds xs := by
  unfold boxIds
  rw [List.map_map]
  exact List.map_congr_left (fun b _ => hf b)

theorem setStyle_id (b : TextBox) (style : StyleKey) (v : Bool) :
    (b.setStyle style v).id = b.id := by
  cases style <;> rfl

theorem mem_jsSlice_zero {α : Type} (xs : List α) (stop : Int) (a : α)
    (h : a ∈ jsSlice xs 0 stop) : a ∈ xs := by
  rw [jsSlice_zero] at h
  exact List.mem_of_mem_take h

theorem mem_of_jsIndex {α : Type} (xs : List α) (i : Int) (a : α)
    (h : jsIndex xs i = some a) : a ∈ xs := by
  unfold jsIndex at h
  split at h
  · exact List.get?_mem h
  · simp at h

theorem mem_addToHistory_history (n : List TextBox) (s : EditorState)
    (snap : List TextBox) (h : snap ∈ (addToHistory n s).history) :
    snap ∈ s.history ∨ snap = n := by
  rw [addToHistory_history, List.mem_append, List.mem_singleton] at h
  exact h.imp (mem_jsSlice_zero _ _ _) id

/-- The shape of one step: every history entry afterwards is an old entry or
the new Box Store; and the new Box Store is the old one with `newBox now`
appended (for `addTextBox`), or has the ids of the old one, or is an old history
entry. -/
theorem step_shape (s : EditorState) (c : Command) (s' : EditorState)
    (hs : step s c = some s') :
    (∀ snap ∈ s'.history, snap ∈ s.history ∨ snap = s'.textBoxes) ∧
    ((∃ now, c = .addTextBox now ∧ s'.textBoxes = s.textBoxes ++ [newBox now]) ∨
      (clockValues [c] = [] ∧
        (boxIds s'.textBoxes = boxIds s.textBoxes ∨
          ((c = .undo ∨ c = .redo) ∧ s'.textBoxes ∈ s.history)))) := by
  cases c with
  | addTextBox now =>
    simp only [step, Option.some.injEq] at hs
    subst hs
    exact ⟨fun snap h => mem_addToHistory_history _ _ snap h, Or.inl ⟨now, rfl, rfl⟩⟩
  | handleTextChange value =>
    simp only [step, Option.some.injEq] at hs
    subst hs
    unfold handleTextChange
    cases hsel : s.selectedBox with
    | none => exact ⟨fun snap h => Or.inl h, Or.inr ⟨rfl, Or.inl rfl⟩⟩
    | some sel =>
      refine ⟨fun snap h => Or.inl h, Or.inr ⟨rfl, Or.inl ?_⟩⟩
      apply boxIds_map_of_id
      intro b
      beta_reduce
      split <;> rfl
  | toggleStyle style =>
    simp only [step, Option.some.injEq] at hs
    subst hs
    unfold toggleStyle
    cases hsel : s.selectedBox with
    | none => exact ⟨fun snap h => Or.inl h, Or.inr ⟨rfl, Or.inl rfl⟩⟩
    | some sel =>
      refine ⟨fun snap h => mem_addToHistory_history _ _ snap h, Or.inr ⟨rfl, Or.inl ?_⟩⟩
      apply boxIds_map_of_id
      intro b
      beta_reduce
      split
      · exact setStyle_id _ _ _
      · rfl
  | changeFontSize delta =>
    simp only [step, Option.some.injEq] at hs
    subst hs
    unfold changeFontSize
    cases hsel : s.selectedBox with
    | none => exact ⟨fun snap h => Or.inl h, Or.inr ⟨rfl, Or.inl rfl⟩⟩
    | some sel =>
      refine ⟨fun snap h => mem_addToHistory_history _ _ snap h, Or.inr ⟨rfl, Or.inl ?_⟩⟩
      apply boxIds_map_of_id
      intro b
      beta_reduce
      split <;> rfl
  | changeFontFamily fontFamily =>
    simp only [step, Option.some.injEq] at hs
    subst hs
    unfold changeFontFamily
    cases hsel : s.selectedBox with
    | none => exact ⟨fun snap h => Or.inl h, Or.inr ⟨rfl, Or.inl rfl⟩⟩
    | some sel =>
      refine ⟨fun snap h => mem_addToHistory_history _ _ snap h, Or.inr ⟨rfl, Or.inl ?_⟩⟩
      apply boxIds_map_of_id
      intro b
      beta_reduce
      split <;> rfl
  | toggleAlignCenter =>
    simp only [step, Option.some.injEq] at hs
    subst hs
    unfold toggleAlignCenter
    cases hsel : s.selectedBox with
    | none => exact ⟨fun snap h => Or.inl h, Or.inr ⟨rfl, Or.inl rfl⟩⟩
    | some sel =>
      refine ⟨fun snap h => mem_addToHistory_history _ _ snap h, Or.inr ⟨rfl, Or.inl ?_⟩⟩
      apply boxIds_map_of_id
      intro b
      beta_reduce
      split <;> rfl
  | dragStop boxId x y =>
    simp only [step, Option.some.injEq] at hs
    subst hs
    refine ⟨fun snap h => mem_addToHistory_history _ _ snap h, Or.inr ⟨rfl, Or.inl ?_⟩⟩
    apply boxIds_map_of_id
    intro b
    beta_reduce
    split <;> rfl
  | mouseDown boxId =>
    simp only [step, Option.some.injEq] at hs
    subst hs
    exact ⟨fun snap h => Or.inl h, Or.inr ⟨rfl, Or.inl rfl⟩⟩
  | undo =>
    simp only [step] at hs
    rcases undo_eq_some s s' hs with ⟨rfl, _⟩ | ⟨_, snap, hsnap, rfl⟩
    · exact ⟨fun snap h => Or.inl h, Or.inr ⟨rfl, Or.inl rfl⟩⟩
    · exact ⟨fun snap h => Or.inl h,
        Or.inr ⟨rfl, Or.inr ⟨Or.inl rfl, mem_of_jsIndex _ _ _ hsnap⟩⟩⟩
  | redo =>
    simp only [step] at hs
    rcases redo_eq_some s s' hs with ⟨rfl, _⟩ | ⟨_, snap, hsnap, rfl⟩
    · exact ⟨fun snap h => Or.inl h, Or.inr ⟨rfl, Or.inl rfl⟩⟩
    · exact ⟨fun snap h => Or.inl h,
        Or.inr ⟨rfl, Or.inr ⟨Or.inr rfl, mem_of_jsIndex _ _ _ hsnap⟩⟩⟩

/-- Which steps write `selectedBox`. -/
theorem step_selectedBox (s : EditorState) (c : Command) (s' : EditorState)
    (hs : step s c = some s') :
    (∀ now, c = .addTextBox now → s'.selectedBox = some now) ∧
    (∀ boxId, c = .mouseDown boxId → s'.selectedBox = some boxId) ∧
    ((∀ now, c ≠ .addTextBox now) → (∀ boxId, c ≠ .mouseDown boxId) →
      s'.selectedBox = s.selectedBox) := by
  cases c with
  | addTextBox now =>
    simp only [step, Option.some.injEq] at hs
    subst hs
    exact ⟨(fun n h => by cases h; rfl), (fun _ h => nomatch h), fun h _ => absurd rfl (h now)⟩
  | mouseDown boxId =>
    simp only [step, Option.some.injEq] at hs
    subst hs
    exact ⟨(fun _ h => nomatch h), (fun n h => by cases h; rfl),
      fun _ h => absurd rfl (h boxId)⟩
  | handleTextChange value =>
    simp only [step, Option.some.injEq] at hs
    subst hs
    refine ⟨(fun _ h => nomatch h), (fun _ h => nomatch h), fun _ _ => ?_⟩
    unfold handleTextChange
    cases hsel : s.selectedBox <;> simp [hsel]
  | toggleStyle style =>
    simp only [step, Option.some.injEq] at hs
    subst hs
    refine ⟨(fun _ h => nomatch h), (fun _ h => nomatch h), fun _ _ => ?_⟩
    unfold toggleStyle
    cases hsel : s.selectedBox <;> simp [hsel, addToHistory_selectedBox]
  | changeFontSize delta =>
    simp only [step, Option.some.injEq] at hs
    subst hs
    refine ⟨(fun _ h => nomatch h), (fun _ h => nomatch h), fun _ _ => ?_⟩
    unfold changeFontSize
    cases hsel : s.selectedBox <;> simp [hsel, addToHistory_selectedBox]
  | changeFontFamily fontFamily =>
    simp only [step, Option.some.injEq] at hs
    subst hs
    refine ⟨(fun _ h => nomatch h), (fun _ h => nomatch h), fun _ _ => ?_⟩
    unfold changeFontFamily
    cases hsel : s.selectedBox <;> simp [hsel, addToHistory_selectedBox]
  | toggleAlignCenter =>
    simp only [step, Option.some.injEq] at hs
    subst hs
    refine ⟨(fun _ h => nomatch h), (fun _ h => nomatch h), fun _ _ => ?_⟩
    unfold toggleAlignCenter
    cases hsel : s.selectedBox <;> simp [hsel, addToHistory_selectedBox]
  | dragStop boxId x y =>
    simp only [step, Option.some.injEq] at hs
    subst hs
    exact ⟨(fun _ h => nomatch h), (fun _ h => nomatch h), fun _ _ => rfl⟩
  | undo =>
    simp only [step] at hs
    refine ⟨(fun _ h => nomatch h), (fun _ h => nomatch h), fun _ _ => ?_⟩
    rcases undo_eq_some s s' hs with ⟨rfl, _⟩ | ⟨_, snap, _, rfl⟩ <;> rfl
  | redo =>
    simp only [step] at hs
    refine ⟨(fun _ h => nomatch h), (fun _ h => nomatch h), fun _ _ => ?_⟩
    rcases redo_eq_some s s' hs with ⟨rfl, _⟩ | ⟨_, snap, _, rfl⟩ <;> rfl

theorem jsIndex_eq_getElem? {α : Type} (xs : List α) (i : Int) (h0 : 0 ≤ i) :
    jsIndex xs i = xs[i.toNat]? := by
  simp [jsIndex, h0]

theorem historyGrows_addToHistory (s : EditorState) (n : List TextBox)
    (sel : Option Int) (hB : HistoryGrows s)
    (hn : boxIds s.textBoxes <+: boxIds n) :
    HistoryGrows (addToHistory n { s with textBoxes := n, selectedBox := sel }) := by
  obtain ⟨hC, h1, h2, _⟩ := hB
  unfold CursorInRange at hC
  have hhist : (addToHistory n { s with textBoxes := n, selectedBox := sel }).history
      = s.history.take (s.historyIndex + 1).toNat ++ [n] := by
    rw [addToHistory_history]
    exact congrArg (fun l => l ++ [n])
      (jsSlice_zero_of_range s.history (s.historyIndex + 1) (by omega) (by omega))
  have hlen : (s.history.take (s.historyIndex + 1).toNat).length
      = (s.historyIndex + 1).toNat := List.length_take_of_le (by omega)
  refine ⟨cursorInRange_addToHistory _ _, ?_, ?_, ?_⟩
  · intro snap hsnap
    rw [addToHistory_at_cursor] at hsnap
    simp only [Option.some.injEq] at hsnap
    rw [← hsnap, addToHistory_textBoxes]
  · intro k a b ha hb
    rw [hhist] at ha hb
    rcases Nat.lt_trichotomy (k + 1) (s.historyIndex + 1).toNat with hlt | heq | hgt
    · rw [List.getElem?_append_left (by omega), List.getElem?_take_of_lt (by omega)] at ha hb
      exact h2 k a b ha hb
    · rw [List.getElem?_append_left (by omega), List.getElem?_take_of_lt (by omega)] at ha
      rw [List.getElem?_append_right (by omega)] at hb
      have hk : (k + 1 - (s.history.take (s.historyIndex + 1).toNat).length) = 0 := by omega
      rw [hk] at hb
      simp only [List.getElem?_cons_zero, Option.some.injEq] at hb
      have hidx : s.historyIndex.toNat = k := by omega
      have ha2 : jsIndex s.history s.historyIndex = some a := by
        rw [jsIndex_eq_getElem? _ _ (by omega), hidx]
        exact ha
      rw [h1 a ha2, ← hb]
      exact hn
    · rw [List.getElem?_eq_none (by simp only [List.length_append, List.length_singleton]; omega)] at hb
      simp at hb
  · intro hneg
    have h := addToHistory_length_pos n { s with textBoxes := n, selectedBox := sel }
    rw [addToHistory_historyIndex] at hneg
    omega

theorem historyGrows_of_same_history (s s' : EditorState) (hB : HistoryGrows s)
    (hh : s'.history = s.history) (hi : s'.historyIndex = s.historyIndex)
    (hids : boxIds s'.textBoxes = boxIds s.textBoxes) : HistoryGrows s' := by
  obtain ⟨hC, h1, h2, h3⟩ := hB
  unfold HistoryGrows CursorInRange
  rw [hh, hi, hids]
  refine ⟨hC, h1, h2, ?_⟩
  intro hneg
  have h := h3 hneg
  rw [h] at hids
  simpa [boxIds] using hids

theorem historyGrows_step (s : EditorState) (c : Command) (s' : EditorState)
    (hB : HistoryGrows s) (hs : step s c = some s') : HistoryGrows s' := by
  cases c with
  | addTextBox now =>
    simp only [step, Option.some.injEq] at hs
    subst hs
    refine historyGrows_addToHistory s _ _ hB ?_
    simp [boxIds]
  | handleTextChange value =>
    simp only [step, Option.some.injEq] at hs
    subst hs
    unfold handleTextChange
    cases hsel : s.selectedBox with
    | none => exact hB
    | some sel =>
      refine historyGrows_of_same_history s _ hB rfl rfl ?_
      apply boxIds_map_of_id
      intro b
      beta_reduce
      split <;> rfl
  | toggleStyle style =>
    simp only [step, Option.some.injEq] at hs
    subst hs
    unfold toggleStyle
    cases hsel : s.selectedBox with
    | none => exact hB
    | some sel =>
      refine historyGrows_addToHistory s _ s.selectedBox hB ?_
      rw [boxIds_map_of_id]
      intro b
      beta_reduce
      split
      · exact setStyle_id _ _ _
      · rfl
  | changeFontSize delta =>
    simp only [step, Option.some.injEq] at hs
    subst hs
    unfold changeFontSize
    cases hsel : s.selectedBox with
    | none => exact hB
    | some sel =>
      refine historyGrows_addToHistory s _ s.selectedBox hB ?_
      rw [boxIds_map_of_id]
      intro b
      beta_reduce
      split <;> rfl
  | changeFontFamily fontFamily =>
    simp only [step, Option.some.injEq] at hs
    subst hs
    unfold changeFontFamily
    cases hsel : s.selectedBox with
    | none => exact hB
    | some sel =>
      refine historyGrows_addToHistory s _ s.selectedBox hB ?_
      rw [boxIds_map_of_id]
      intro b
      beta_reduce
      split <;> rfl
  | toggleAlignCenter =>
    simp only [step, Option.some.injEq] at hs
    subst hs
    unfold toggleAlignCenter
    cases hsel : s.selectedBox with
    | none => exact hB
    | some sel =>
      refine historyGrows_addToHistory s _ s.selectedBox hB ?_
      rw [boxIds_map_of_id]
      intro b
      beta_reduce
      split <;> rfl
  | dragStop boxId x y =>
    simp only [step, Option.some.injEq] at hs
    subst hs
    refine historyGrows_addToHistory s _ s.selectedBox hB ?_
    rw [boxIds_map_of_id]
    intro b
    beta_reduce
    split <;> rfl
  | mouseDown boxId =>
    simp only [step, Option.some.injEq] at hs
    subst hs
    exact historyGrows_of_same_history s _ hB rfl rfl rfl
  | undo =>
    simp only [step] at hs
    rcases undo_eq_some s s' hs with ⟨rfl, _⟩ | ⟨hpos, snap, hsnap, rfl⟩
    · exact hB
    · obtain ⟨hC, _, h2, _⟩ := hB
      unfold CursorInRange at hC
      refine ⟨⟨by simp only; omega, by simp only; omega⟩, ?_, h2, ?_⟩
      · intro snap2 h
        simp only at h
        rw [hsnap] at h
        simp only [Option.some.injEq] at h
        rw [h]
      · intro hneg
        simp only at hneg
        omega
  | redo =>
    simp only [step] at hs
    rcases redo_eq_some s s' hs with ⟨rfl, _⟩ | ⟨hlt, snap, hsnap, rfl⟩
    · exact hB
    · obtain ⟨hC, _, h2, _⟩ := hB
      unfold CursorInRange at hC
      refine ⟨⟨by simp only; omega, by simp only; omega⟩, ?_, h2, ?_⟩
      · intro snap2 h
        simp only at h
        rw [hsnap] at h
        simp only [Option.some.injEq] at h
        rw [h]
      · intro hneg
        simp only at hneg
        omega

/-- One step of the selection invariant: the history keeps its shape, and the
selection is present afterwards unless an undo is pending. -/
theorem selectionPresent_step (s : EditorState) (c : Command) (s' : EditorState)
    (flag : Bool) (hB : HistoryGrows s) (hP : flag = false → SelectionPresent s)
    (hen : enabled s c = true) (hs : step s c = some s') :
    HistoryGrows s' ∧ (undoPending flag c = false → SelectionPresent s') := by
  refine ⟨historyGrows_step s c s' hB hs, ?_⟩
  intro hflag
  obtain ⟨hadd, hmouse, hother⟩ := step_selectedBox s c s' hs
  cases c with
  | undo => simp [undoPending] at hflag
  | addTextBox now =>
    intro sel hsel
    rw [hadd now rfl] at hsel
    cases hsel
    simp only [step, Option.some.injEq] at hs
    subst hs
    simp [addTextBox, addToHistory_textBoxes, boxIds, newBox]
  | mouseDown boxId =>
    intro sel hsel
    rw [hmouse boxId rfl] at hsel
    cases hsel
    simp only [step, Option.some.injEq] at hs
    subst hs
    simpa [enabled, mouseDown] using hen
  | redo =>
    have hf : flag = false := by simpa [undoPending] using hflag
    have hsame := hother (fun _ h => nomatch h) (fun _ h => nomatch h)
    simp only [step] at hs
    rcases redo_eq_some s s' hs with ⟨rfl, _⟩ | ⟨hlt, snap, hsnap, rfl⟩
    · exact hP hf
    · intro sel hsel
      have hmem := hP hf sel hsel
      obtain ⟨hC, h1, h2, h3⟩ := hB
      unfold CursorInRange at hC
      have hnonneg : 0 ≤ s.historyIndex := by
        by_contra hneg
        rw [h3 (by omega)] at hmem
        simp [boxIds] at hmem
      obtain ⟨a, ha⟩ := jsIndex_isSome s.history s.historyIndex hnonneg hC.2
      have hpre : boxIds a <+: boxIds snap := by
        refine h2 s.historyIndex.toNat a snap ?_ ?_
        · rw [← jsIndex_eq_getElem? _ _ hnonneg]; exact ha
        · have e : s.historyIndex.toNat + 1 = (s.historyIndex + 1).toNat := by omega
          rw [e, ← jsIndex_eq_getElem? _ _ (by omega)]; exact hsnap
      rw [← h1 a ha] at hmem
      exact hpre.subset hmem
  | handleTextChange value =>
    have hf : flag = false := by simpa [undoPending] using hflag
    have hsame := hother (fun _ h => nomatch h) (fun _ h => nomatch h)
    rcases (step_shape s _ s' hs).2 with ⟨_, h, _⟩ | ⟨_, hids | ⟨h | h, _⟩⟩
    · cases h
    · intro sel hsel
      rw [hids]
      exact hP hf sel (hsame ▸ hsel)
    · cases h
    · cases h
  | toggleStyle style =>
    have hf : flag = false := by simpa [undoPending] using hflag
    have hsame := hother (fun _ h => nomatch h) (fun _ h => nomatch h)
    rcases (step_shape s _ s' hs).2 with ⟨_, h, _⟩ | ⟨_, hids | ⟨h | h, _⟩⟩
    · cases h
    · intro sel hsel
      rw [hids]
      exact hP hf sel (hsame ▸ hsel)
    · cases h
    · cases h
  | changeFontSize delta =>
    have hf : flag = false := by simpa [undoPending] using hflag
    have hsame := hother (fun _ h => nomatch h) (fun _ h => nomatch h)
    rcases (step_shape s _ s' hs).2 with ⟨_, h, _⟩ | ⟨_, hids | ⟨h | h, _⟩⟩
    · cases h
    · intro sel hsel
      rw [hids]
      exact hP hf sel (hsame ▸ hsel)
    · cases h
    · cases h
  | changeFontFamily fontFamily =>
    have hf : flag = false := by simpa [undoPending] using hflag
    have hsame := hother (fun _ h => nomatch h) (fun _ h => nomatch h)
    rcases (step_shape s _ s' hs).2 with ⟨_, h, _⟩ | ⟨_, hids | ⟨h | h, _⟩⟩
    · cases h
    · intro sel hsel
      rw [hids]
      exact hP hf sel (hsame ▸ hsel)
    · cases h
    · cases h
  | toggleAlignCenter =>
    have hf : flag = false := by simpa [undoPending] using hflag
    have hsame := hother (fun _ h => nomatch h) (fun _ h => nomatch h)
    rcases (step_shape s _ s' hs).2 with ⟨_, h, _⟩ | ⟨_, hids | ⟨h | h, _⟩⟩
    · cases h
    · intro sel hsel
      rw [hids]
      exact hP hf sel (hsame ▸ hsel)
    · cases h
    · cases h
  | dragStop boxId x y =>
    have hf : flag = false := by simpa [undoPending] using hflag
    have hsame := hother (fun _ h => nomatch h) (fun _ h => nomatch h)
    rcases (step_shape s _ s' hs).2 with ⟨_, h, _⟩ | ⟨_, hids | ⟨h | h, _⟩⟩
    · cases h
    · intro sel hsel
      rw [hids]
      exact hP hf sel (hsame ▸ hsel)
    · cases h
    · cases h

theorem runTrace_selectionPresent :
    ∀ (cs : List Command) (s s' : EditorState) (flag : Bool),
      HistoryGrows s → (flag = false → SelectionPresent s) →
      runTrace s cs = some s' →
      HistoryGrows s' ∧ (undoSinceSelectionFrom flag cs = false → SelectionPresent s') := by
  intro cs
  induction cs with
  | nil =>
    intro s s' flag hB hP h
    simp only [runTrace, Option.some.injEq] at h
    subst h
    exact ⟨hB, hP⟩
  | cons c cs ih =>
    intro s s' flag hB hP h
    simp only [runTrace] at h
    split at h
    · rename_i hen
      cases hs : step s c with
      | none => rw [hs] at h; simp at h
      | some s1 =>
        rw [hs] at h
        simp only [Option.some_bind] at h
        obtain ⟨hB1, hP1⟩ := selectionPresent_step s c s1 flag hB hP hen hs
        exact ih s1 s' (undoPending flag c) hB1 hP1 h
    · simp at h

theorem clockValues_cons (c : Command) (cs : List Command) :
    clockValues (c :: cs) = clockValues [c] ++ clockValues cs := by
  cases c <;> rfl

theorem idsDistinct_step (s : EditorState) (c : Command) (s' : EditorState)
    (hs : step s c = some s') (hP : IdsDistinct s)
    (hfresh : ∀ id ∈ clockValues [c], ¬ KnownId s id) :
    IdsDistinct s' ∧ ∀ id, KnownId s' id → KnownId s id ∨ id ∈ clockValues [c] := by
  obtain ⟨hhist, hbox⟩ := step_shape s c s' hs
  have hA : (boxIds s'.textBoxes).Nodup ∧
      ∀ id ∈ boxIds s'.textBoxes, KnownId s id ∨ id ∈ clockValues [c] := by
    rcases hbox with ⟨now, rfl, htb⟩ | ⟨_, hids | ⟨_, hmem⟩⟩
    · have hnow : now ∉ boxIds s.textBoxes := fun h =>
        hfresh now (by simp [clockValues]) (Or.inl h)
      have hids : boxIds s'.textBoxes = boxIds s.textBoxes ++ [now] := by
        rw [htb]; simp [boxIds, newBox]
      rw [hids]
      constructor
      · rw [List.nodup_append]
        refine ⟨hP.1, List.nodup_singleton _, ?_⟩
        intro a ha hb
        rw [List.mem_singleton] at hb
        exact hnow (hb ▸ ha)
      · intro id hid
        rw [List.mem_append, List.mem_singleton] at hid
        rcases hid with h | h
        · exact Or.inl (Or.inl h)
        · exact Or.inr (by simp [clockValues, h])
    · rw [hids]
      exact ⟨hP.1, fun id hid => Or.inl (Or.inl hid)⟩
    · exact ⟨hP.2 _ hmem, fun id hid => Or.inl (Or.inr ⟨_, hmem, hid⟩)⟩
  refine ⟨⟨hA.1, ?_⟩, ?_⟩
  · intro snap hsnap
    rcases hhist snap hsnap with h | h
    · exact hP.2 snap h
    · rw [h]; exact hA.1
  · intro id hid
    rcases hid with h | ⟨snap, hsnap, h⟩
    · exact hA.2 id h
    · rcases hhist snap hsnap with h1 | h1
      · exact Or.inl (Or.inr ⟨snap, h1, h⟩)
      · rw [h1] at h; exact hA.2 id h

theorem runTrace_idsDistinct :
    ∀ (cs : List Command) (s s' : EditorState),
      IdsDistinct s → (clockValues cs).Nodup →
      (∀ id ∈ clockValues cs, ¬ KnownId s id) →
      runTrace s cs = some s' → IdsDistinct s' := by
  intro cs
  induction cs with
  | nil =>
    intro s s' hP _ _ h
    simp only [runTrace, Option.some.injEq] at h
    exact h ▸ hP
  | cons c cs ih =>
    intro s s' hP hnd hfresh h
    rw [clockValues_cons, List.nodup_append] at hnd
    obtain ⟨_, hnd2, hdisj⟩ := hnd
    simp only [runTrace] at h
    split at h
    · cases hs : step s c with
      | none => rw [hs] at h; simp at h
      | some s1 =>
        rw [hs] at h
        simp only [Option.some_bind] at h
        obtain ⟨hP1, hknown⟩ := idsDistinct_step s c s1 hs hP
          (fun id hid => hfresh id (by rw [clockValues_cons]; exact List.mem_append_left _ hid))
        refine ih s1 s' hP1 hnd2 ?_ h
        intro id hid hk
        rcases hknown id hk with h1 | h1
        · exact hfresh id (by rw [clockValues_cons]; exact List.mem_append_right _ hid) h1
        · exact hdisj h1 hid
    · simp at h

/-! ## The history stack -/

/-- C1: for a cursor with -1 <= historyIndex < length(history), addToHistory(snap)
yields the first historyIndex+1 entries of the old history followed by snap, and
the new cursor is the new length minus 1; and after recording S1, S2, S3 from the
initial state, two undos show S1, and recording S_new then leaves the history
exactly [S1, S_new] with historyIndex 1. -/
theorem addToHistory_truncates_then_appends (s : EditorState)
    (snap S1 S2 S3 Snew : List TextBox)
    (hlo : -1 ≤ s.historyIndex) (hhi : s.historyIndex < (s.history.length : Int)) :
    ((addToHistory snap s).history
        = s.history.take (s.historyIndex + 1).toNat ++ [snap] ∧
      (addToHistory snap s).historyIndex
        = ((addToHistory snap s).history.length : Int) - 1) ∧
    (∃ u : EditorState,
      (undo (addToHistory S3 (addToHistory S2 (addToHistory S1 initialState)))).bind undo
        = some u ∧
      u.textBoxes = S1 ∧
      (addToHistory Snew u).history = [S1, Snew] ∧
      (addToHistory Snew u).historyIndex = 1) := by
  refine ⟨⟨?_, addToHistory_historyIndex snap s⟩, ?_⟩
  · rw [addToHistory_history, jsSlice_zero_of_range _ _ (by omega) (by omega)]
  · refine ⟨{ textBoxes := S1, selectedBox := none, history := [S1, S2, S3],
               historyIndex := 0 }, ?_, rfl, ?_, ?_⟩
    · simp [addToHistory, undo, initialState, jsSlice, jsRelIndex, jsIndex]
    · simp [addToHistory, jsSlice, jsRelIndex]
    · simp [addToHistory, jsSlice, jsRelIndex]

theorem addToHistory_truncates_then_appends_witness :
    (-1 ≤ (0 : Int) ∧ (0 : Int) < (([[newBox 1], [newBox 1, newBox 2]] :
        List (List TextBox)).length : Int)) ∧
    (addToHistory [newBox 3]
        { textBoxes := [newBox 1], selectedBox := some 2,
          history := [[newBox 1], [newBox 1, newBox 2]], historyIndex := 0 }).history
      = [[newBox 1], [newBox 3]] :=
  ⟨⟨by decide, by decide⟩,
    (addToHistory_truncates_then_appends
      { textBoxes := [newBox 1], selectedBox := some 2,
        history := [[newBox 1], [newBox 1, newBox 2]], historyIndex := 0 }
      [newBox 3] [] [] [] [] (by decide) (by decide)).1.1⟩

/-- C2: in every state reachable from the initial state by any sequence of
commands, -1 <= historyIndex < length(history). -/
theorem historyIndex_in_range_of_reachable (s : EditorState) (h : Reachable s) :
    -1 ≤ s.historyIndex ∧ s.historyIndex < (s.history.length : Int) :=
  cursorInRange_of_reachable s h

theorem historyIndex_in_range_of_reachable_witness :
    Reachable { textBoxes := [newBox 1], selectedBox := some 2,
                history := [[newBox 1], [newBox 1, newBox 2]], historyIndex := 0 } ∧
    (-1 ≤ (0 : Int) ∧ (0 : Int) < (([[newBox 1], [newBox 1, newBox 2]] :
        List (List TextBox)).length : Int)) :=
  ⟨⟨[.addTextBox 1, .addTextBox 2, .undo], rfl⟩,
    historyIndex_in_range_of_reachable
      { textBoxes := [newBox 1], selectedBox := some 2,
        history := [[newBox 1], [newBox 1, newBox 2]], historyIndex := 0 }
      ⟨[.addTextBox 1, .addTextBox 2, .undo], rfl⟩⟩

/-! ## Commands on the Box Store -/

theorem changeFontSize_textBoxes (delta sel : Int) (s : EditorState)
    (hsel : s.selectedBox = some sel) :
    (changeFontSize delta s).textBoxes = s.textBoxes.map
      (fun box =>
        if box.id = sel then
          { box with fontSize := max 8 (min 72 (box.fontSize + delta)) }
        else box) := by
  unfold changeFontSize
  rw [hsel]
  rfl

/-- C4: with a selection set, changeFontSize(delta) gives each box whose id equals
the selection the fontSize max(8, min(72, old + delta)), which lies in [8, 72],
for every integer delta and starting size; start 8 with delta -5 gives 8 and
start 70 with delta +5 gives 72. -/
theorem changeFontSize_clamps (s : EditorState) (sel delta : Int)
    (hsel : s.selectedBox = some sel) :
    (∀ (k : Nat) (b : TextBox), s.textBoxes[k]? = some b → b.id = sel →
      ∃ b', (changeFontSize delta s).textBoxes[k]? = some b' ∧ b'.id = sel ∧
        b'.fontSize = max 8 (min 72 (b.fontSize + delta)) ∧
        8 ≤ b'.fontSize ∧ b'.fontSize ≤ 72) ∧
    (∀ b' ∈ (changeFontSize delta s).textBoxes, b'.id = sel →
      8 ≤ b'.fontSize ∧ b'.fontSize ≤ 72) ∧
    (∀ b : TextBox, b.fontSize = 8 →
      boxFontSizes (changeFontSize (-5)
        { s with textBoxes := [b], selectedBox := some b.id }).textBoxes = [8]) ∧
    (∀ b : TextBox, b.fontSize = 70 →
      boxFontSizes (changeFontSize 5
        { s with textBoxes := [b], selectedBox := some b.id }).textBoxes = [72]) := by
  refine ⟨?_, ?_, ?_, ?_⟩
  · intro k b hk hid
    rw [changeFontSize_textBoxes delta sel s hsel]
    refine ⟨{ b with fontSize := max 8 (min 72 (b.fontSize + delta)) }, ?_, hid, rfl, ?_, ?_⟩
    · rw [List.getElem?_map, hk]
      simp [hid]
    · exact le_max_left _ _
    · exact max_le (by norm_num) (min_le_left _ _)
  · intro b' hb' hid
    rw [changeFontSize_textBoxes delta sel s hsel] at hb'
    obtain ⟨b, _, hb⟩ := List.mem_map.1 hb'
    by_cases hbid : b.id = sel
    · rw [if_pos hbid] at hb
      subst hb
      exact ⟨le_max_left _ _, max_le (by norm_num) (min_le_left _ _)⟩
    · rw [if_neg hbid] at hb
      subst hb
      exact absurd hid hbid
  · intro b hb
    simp [changeFontSize, addToHistory, boxFontSizes, hb]
  · intro b hb
    simp [changeFontSize, addToHistory, boxFontSizes, hb]

theorem changeFontSize_clamps_witness :
    (addTextBox 1 initialState).selectedBox = some 1 ∧
    (∀ b' ∈ (changeFontSize 100 (addTextBox 1 initialState)).textBoxes, b'.id = 1 →
      8 ≤ b'.fontSize ∧ b'.fontSize ≤ 72) :=
  ⟨rfl, (changeFontSize_clamps (addTextBox 1 initialState) 1 100 rfl).2.1⟩

/-- C5: for every state and clock value, addTextBox appends exactly one box to
the Box Store (earlier boxes unchanged, length plus one); the box has text
"New Text", position (50, 50), fontSize 16, fontFamily "Arial" and all four flags
false; the selection becomes its id; the new Box Store is the last history entry
and the entry at the cursor. -/
theorem addTextBox_appends_default_box (s : EditorState) (now : Int) :
    ∃ b : TextBox,
      (addTextBox now s).textBoxes = s.textBoxes ++ [b] ∧
      (addTextBox now s).textBoxes.length = s.textBoxes.length + 1 ∧
      b.id = now ∧ b.text = "New Text" ∧ b.x = 50 ∧ b.y = 50 ∧ b.fontSize = 16 ∧
      b.fontFamily = "Arial" ∧ b.isBold = false ∧ b.isItalic = false ∧
      b.isUnderline = false ∧ b.alignCenter = false ∧
      (addTextBox now s).selectedBox = some b.id ∧
      (addTextBox now s).history.getLast? = some (addTextBox now s).textBoxes ∧
      (addTextBox now s).historyIndex = ((addTextBox now s).history.length : Int) - 1 ∧
      jsIndex (addTextBox now s).history (addTextBox now s).historyIndex
        = some (addTextBox now s).textBoxes := by
  refine ⟨newBox now, rfl, ?_, rfl, rfl, rfl, rfl, rfl, rfl, rfl, rfl, rfl, rfl, rfl,
    ?_, rfl, ?_⟩
  · simp [addTextBox, addToHistory_textBoxes]
  · unfold addTextBox
    rw [addToHistory_history, addToHistory_textBoxes]
    simp
  · unfold addTextBox
    rw [addToHistory_textBoxes]
    exact addToHistory_at_cursor _ _

/-- C6: with no selection, toggleStyle, changeFontSize, changeFontFamily,
toggleAlignCenter and handleTextChange return the state unchanged, for every
argument. -/
theorem no_selection_is_noop (s : EditorState) (style : StyleKey) (delta : Int)
    (name value : String) (hsel : s.selectedBox = none) :
    toggleStyle style s = s ∧ changeFontSize delta s = s ∧
    changeFontFamily name s = s ∧ toggleAlignCenter s = s ∧
    handleTextChange value s = s := by
  refine ⟨?_, ?_, ?_, ?_, ?_⟩
  · unfold toggleStyle; rw [hsel]
  · unfold changeFontSize; rw [hsel]
  · unfold changeFontFamily; rw [hsel]
  · unfold toggleAlignCenter; rw [hsel]
  · unfold handleTextChange; rw [hsel]

theorem no_selection_is_noop_witness :
    initialState.selectedBox = none ∧
    (toggleStyle .isBold initialState = initialState ∧
      changeFontSize 1 initialState = initialState ∧
      changeFontFamily "Georgia" initialState = initialState ∧
      toggleAlignCenter initialState = initialState ∧
      handleTextChange "abc" initialState = initialState) :=
  ⟨rfl, no_selection_is_noop initialState .isBold 1 "Georgia" "abc" rfl⟩

/-- C9 (as stated, refuted): when both addTextBox calls read the same clock value,
box A and box B share their id and changeFontSize(+10) changes both: box A ends
with fontSize 26, not 16. -/
theorem changeFontSize_scenario_same_clock :
    (changeFontSize 10
      (addTextBox 1730000000000 (addTextBox 1730000000000 initialState))).textBoxes
      = [{ newBox 1730000000000 with fontSize := 26 },
         { newBox 1730000000000 with fontSize := 26 }] ∧
    boxFontSizes (changeFontSize 10
      (addTextBox 1730000000000 (addTextBox 1730000000000 initialState))).textBoxes
      ≠ [16, 26] := by
  constructor <;> decide

/-- C9 (amended): with a selection sel set, changeFontSize(delta) keeps the number
and order of boxes, leaves every box whose id differs from sel unchanged and
changes only fontSize on a box whose id equals sel; and when the two addTextBox
calls of the scenario read different clock values, changeFontSize(+10) leaves
box A as created (fontSize 16) and gives box B fontSize 26. -/
theorem changeFontSize_frame (s : EditorState) (sel delta tA tB : Int)
    (hsel : s.selectedBox = some sel) (hclock : tA ≠ tB) :
    ((changeFontSize delta s).textBoxes.length = s.textBoxes.length ∧
      boxIds (changeFontSize delta s).textBoxes = boxIds s.textBoxes ∧
      ∀ (k : Nat) (b : TextBox), s.textBoxes[k]? = some b →
        ∃ b', (changeFontSize delta s).textBoxes[k]? = some b' ∧
          (b.id ≠ sel → b' = b) ∧
          (b.id = sel → b' = { b with fontSize := b'.fontSize })) ∧
    (changeFontSize 10 (addTextBox tB (addTextBox tA initialState))).textBoxes
      = [newBox tA, { newBox tB with fontSize := 26 }] := by
  refine ⟨⟨?_, ?_, ?_⟩, ?_⟩
  · rw [changeFontSize_textBoxes delta sel s hsel, List.length_map]
  · rw [changeFontSize_textBoxes delta sel s hsel]
    unfold boxIds
    rw [List.map_map]
    apply List.map_congr_left
    intro b _
    by_cases hb : b.id = sel <;> simp [hb]
  · intro k b hk
    rw [changeFontSize_textBoxes delta sel s hsel, List.getElem?_map, hk]
    by_cases hb : b.id = sel
    · exact ⟨{ b with fontSize := max 8 (min 72 (b.fontSize + delta)) },
        by simp only [Option.map_some', if_pos hb], fun h => absurd hb h, fun _ => rfl⟩
    · exact ⟨b, by simp only [Option.map_some', if_neg hb], fun _ => rfl,
        fun h => absurd h hb⟩
  · simp [changeFontSize, addTextBox, addToHistory, initialState, newBox, hclock]

theorem changeFontSize_frame_witness :
    ((addTextBox 2 (addTextBox 1 initialState)).selectedBox = some 2 ∧ (1 : Int) ≠ 2) ∧
    (changeFontSize 10 (addTextBox 2 (addTextBox 1 initialState))).textBoxes
      = [newBox 1, { newBox 2 with fontSize := 26 }] :=
  ⟨⟨rfl, by decide⟩,
    (changeFontSize_frame (addTextBox 2 (addTextBox 1 initialState)) 2 10 1 2 rfl
      (by decide)).2⟩

/-! ## Undo and redo -/

/-- C10: in a reachable state, every history-aware operation that takes effect
returns a state whose history entry at the cursor is the displayed Box Store. -/
theorem history_at_cursor_after_effect (s : EditorState) (c : Command)
    (hr : Reachable s) (he : historyAwareEffect s c = true) :
    ∃ s', step s c = some s' ∧
      jsIndex s'.history s'.historyIndex = some s'.textBoxes := by
  have hP := cursorInRange_of_reachable s hr
  unfold CursorInRange at hP
  cases c with
  | addTextBox now => exact ⟨_, rfl, addToHistory_at_cursor _ _⟩
  | handleTextChange value => simp [historyAwareEffect] at he
  | toggleStyle style =>
    obtain ⟨sel, hsel⟩ := Option.isSome_iff_exists.1 he
    refine ⟨_, rfl, ?_⟩
    unfold toggleStyle
    rw [hsel]
    exact addToHistory_at_cursor _ _
  | changeFontSize delta =>
    obtain ⟨sel, hsel⟩ := Option.isSome_iff_exists.1 he
    refine ⟨_, rfl, ?_⟩
    unfold changeFontSize
    rw [hsel]
    exact addToHistory_at_cursor _ _
  | changeFontFamily fontFamily =>
    obtain ⟨sel, hsel⟩ := Option.isSome_iff_exists.1 he
    refine ⟨_, rfl, ?_⟩
    unfold changeFontFamily
    rw [hsel]
    exact addToHistory_at_cursor _ _
  | toggleAlignCenter =>
    obtain ⟨sel, hsel⟩ := Option.isSome_iff_exists.1 he
    refine ⟨_, rfl, ?_⟩
    unfold toggleAlignCenter
    rw [hsel]
    exact addToHistory_at_cursor _ _
  | dragStop boxId x y => exact ⟨_, rfl, addToHistory_at_cursor _ _⟩
  | mouseDown boxId => simp [historyAwareEffect] at he
  | undo =>
    have hpos : s.historyIndex > 0 := by simpa [historyAwareEffect] using he
    obtain ⟨snap, hsnap⟩ := jsIndex_isSome s.history (s.historyIndex - 1)
      (by omega) (by omega)
    refine ⟨{ s with historyIndex := s.historyIndex - 1, textBoxes := snap }, ?_, hsnap⟩
    simp only [step, undo, if_pos hpos, hsnap, Option.map_some']
  | redo =>
    have hlt : s.historyIndex < (s.history.length : Int) - 1 := by
      simpa [historyAwareEffect] using he
    obtain ⟨snap, hsnap⟩ := jsIndex_isSome s.history (s.historyIndex + 1)
      (by omega) (by omega)
    refine ⟨{ s with historyIndex := s.historyIndex + 1, textBoxes := snap }, ?_, hsnap⟩
    simp only [step, redo, if_pos hlt, hsnap, Option.map_some']

theorem history_at_cursor_after_effect_witness :
    (Reachable (addTextBox 2 (addTextBox 1 initialState)) ∧
      historyAwareEffect (addTextBox 2 (addTextBox 1 initialState)) .undo = true) ∧
    ∃ s', step (addTextBox 2 (addTextBox 1 initialState)) .undo = some s' ∧
      jsIndex s'.history s'.historyIndex = some s'.textBoxes :=
  ⟨⟨⟨[.addTextBox 1, .addTextBox 2], rfl⟩, by decide⟩,
    history_at_cursor_after_effect (addTextBox 2 (addTextBox 1 initialState)) .undo
      ⟨[.addTextBox 1, .addTextBox 2], rfl⟩ (by decide)⟩

/-- C3 (as stated, refuted): after addTextBox, toggleStyle(isBold) and typing
"Hello" the cursor is 1 in a history of length 2; undo then redo shows the
snapshot recorded by toggleStyle, whose text is still "New Text", not the Box
Store displayed before the undo. -/
theorem undo_redo_drops_typed_text :
    runTrace initialState
        [.addTextBox 1, .toggleStyle .isBold, .handleTextChange "Hello"]
      = some typedState ∧
    (0 < typedState.historyIndex ∧
      typedState.historyIndex < (typedState.history.length : Int)) ∧
    (undo typedState).bind redo
      = some { typedState with
          textBoxes := [{ newBox 1 with isBold := true }] } ∧
    typedState.textBoxes = [{ newBox 1 with isBold := true, text := "Hello" }] ∧
    (undo typedState).bind redo ≠ some typedState := by
  refine ⟨by decide, by decide, by decide, by decide, by decide⟩

/-- C3 (amended): for every state, reachable or not, with 0 < historyIndex <
length(history), undo then redo both succeed and yield a state with the same
history, historyIndex and selection whose Box Store is history[historyIndex];
it is the state before the undo whenever the Box Store displayed before the undo
was history[historyIndex]. -/
theorem undo_redo_restores_recorded (s : EditorState)
    (hpos : 0 < s.historyIndex) (hlt : s.historyIndex < (s.history.length : Int)) :
    ∃ s1 s2, undo s = some s1 ∧ redo s1 = some s2 ∧
      s2.history = s.history ∧ s2.historyIndex = s.historyIndex ∧
      s2.selectedBox = s.selectedBox ∧
      jsIndex s.history s.historyIndex = some s2.textBoxes ∧
      (jsIndex s.history s.historyIndex = some s.textBoxes → s2 = s) := by
  obtain ⟨snap1, h1⟩ := jsIndex_isSome s.history (s.historyIndex - 1)
    (by omega) (by omega)
  obtain ⟨snap2, h2⟩ := jsIndex_isSome s.history s.historyIndex (by omega) hlt
  refine ⟨{ s with historyIndex := s.historyIndex - 1, textBoxes := snap1 },
    { s with textBoxes := snap2 }, ?_, ?_, rfl, rfl, rfl, h2, ?_⟩
  · simp only [undo, if_pos hpos, h1, Option.map_some']
  · have hlt2 : s.historyIndex - 1 < (s.history.length : Int) - 1 := by omega
    simp only [redo, if_pos hlt2, sub_add_cancel, h2, Option.map_some']
  · intro h
    rw [h2] at h
    simp only [Option.some.injEq] at h
    rw [h]

theorem undo_redo_restores_recorded_witness :
    (0 < (addTextBox 2 (addTextBox 1 initialState)).historyIndex ∧
      (addTextBox 2 (addTextBox 1 initialState)).historyIndex
        < ((addTextBox 2 (addTextBox 1 initialState)).history.length : Int)) ∧
    ∃ s1 s2, undo (addTextBox 2 (addTextBox 1 initialState)) = some s1 ∧
      redo s1 = some s2 ∧
      s2.history = (addTextBox 2 (addTextBox 1 initialState)).history ∧
      s2.historyIndex = (addTextBox 2 (addTextBox 1 initialState)).historyIndex ∧
      s2.selectedBox = (addTextBox 2 (addTextBox 1 initialState)).selectedBox ∧
      jsIndex (addTextBox 2 (addTextBox 1 initialState)).history
        (addTextBox 2 (addTextBox 1 initialState)).historyIndex = some s2.textBoxes ∧
      (jsIndex (addTextBox 2 (addTextBox 1 initialState)).history
          (addTextBox 2 (addTextBox 1 initialState)).historyIndex
        = some (addTextBox 2 (addTextBox 1 initialState)).textBoxes →
        s2 = addTextBox 2 (addTextBox 1 initialState)) :=
  ⟨⟨by decide, by decide⟩,
    undo_redo_restores_recorded (addTextBox 2 (addTextBox 1 initialState))
      (by decide) (by decide)⟩

/-! ## Selection and ids -/

/-- C7 (as stated, refuted): after addTextBox (id 1), addTextBox (id 2, selected)
and undo, the Box Store holds only box 1 while the selection is still 2. -/
theorem selection_stale_after_undo :
    runTrace initialState [.addTextBox 1, .addTextBox 2, .undo]
      = some { textBoxes := [newBox 1], selectedBox := some 2,
               history := [[newBox 1], [newBox 1, newBox 2]], historyIndex := 0 } ∧
    ¬ ∃ b ∈ [newBox 1], b.id = 2 := by
  constructor <;> decide

/-- C7 (amended): in every state reached from the initial state by any sequence
of commands, undo and redo included, in which no undo follows the last command
that set the selection (addTextBox or the selection of a box), a set selection is
the id of some box of the Box Store. -/
theorem selection_present_without_later_undo (cs : List Command) (s : EditorState)
    (sel : Int) (hno : undoSinceSelection cs = false)
    (hrun : runTrace initialState cs = some s) (hsel : s.selectedBox = some sel) :
    ∃ b ∈ s.textBoxes, b.id = sel := by
  have hinit : HistoryGrows initialState := by
    refine ⟨by unfold CursorInRange initialState; simp, ?_, ?_, fun _ => rfl⟩
    · intro snap h
      simp [jsIndex, initialState] at h
    · intro k a b ha _
      simp [initialState] at ha
  have hinv := runTrace_selectionPresent cs initialState s false hinit
    (fun _ sel h => by simp [initialState] at h) hrun
  have hmem := hinv.2 hno sel hsel
  unfold boxIds at hmem
  obtain ⟨b, hb, hid⟩ := List.mem_map.1 hmem
  exact ⟨b, hb, hid⟩

theorem selection_present_without_later_undo_witness :
    (undoSinceSelection
        [.addTextBox 1, .addTextBox 2, .undo, .addTextBox 3, .toggleStyle .isBold,
          .redo] = false ∧
      runTrace initialState
        [.addTextBox 1, .addTextBox 2, .undo, .addTextBox 3, .toggleStyle .isBold,
          .redo]
        = some (toggleStyle .isBold (addTextBox 3
            { textBoxes := [newBox 1], selectedBox := some 2,
              history := [[newBox 1], [newBox 1, newBox 2]], historyIndex := 0 })) ∧
      (toggleStyle .isBold (addTextBox 3
          { textBoxes := [newBox 1], selectedBox := some 2,
            history := [[newBox 1], [newBox 1, newBox 2]], historyIndex := 0 })).selectedBox
        = some 3) ∧
    ∃ b ∈ (toggleStyle .isBold (addTextBox 3
        { textBoxes := [newBox 1], selectedBox := some 2,
          history := [[newBox 1], [newBox 1, newBox 2]], historyIndex := 0 })).textBoxes,
      b.id = 3 :=
  ⟨⟨by decide, by decide, by decide⟩,
    selection_present_without_later_undo
      [.addTextBox 1, .addTextBox 2, .undo, .addTextBox 3, .toggleStyle .isBold, .redo]
      _ 3 (by decide) (by decide) (by decide)⟩

/-- C8 (as stated, refuted): two addTextBox calls that read the same clock value
give a reachable Box Store with two boxes of the same id. -/
theorem duplicate_ids_on_same_clock :
    runTrace initialState [.addTextBox 1730000000000, .addTextBox 1730000000000]
      = some (addTextBox 1730000000000 (addTextBox 1730000000000 initialState)) ∧
    boxIds (addTextBox 1730000000000 (addTextBox 1730000000000 initialState)).textBoxes
      = [1730000000000, 1730000000000] ∧
    ¬ (boxIds
        (addTextBox 1730000000000 (addTextBox 1730000000000 initialState)).textBoxes).Nodup := by
  refine ⟨by decide, by decide, by decide⟩

/-- C8 (amended): in every state reached from the initial state by a sequence of
commands whose addTextBox calls read pairwise distinct clock values, all boxes of
the Box Store have pairwise distinct ids. -/
theorem boxIds_nodup_of_distinct_clocks (cs : List Command) (s : EditorState)
    (hclock : (clockValues cs).Nodup) (hrun : runTrace initialState cs = some s) :
    (boxIds s.textBoxes).Nodup :=
  (runTrace_idsDistinct cs initialState s
    ⟨by simp [boxIds, initialState], fun snap h => by simp [initialState] at h⟩ hclock
    (fun id _ hk => by simp [KnownId, boxIds, initialState] at hk) hrun).1

theorem boxIds_nodup_of_distinct_clocks_witness :
    ((clockValues [.addTextBox 1, .addTextBox 2, .undo, .addTextBox 3]).Nodup ∧
      runTrace initialState [.addTextBox 1, .addTextBox 2, .undo, .addTextBox 3]
        = some (addTextBox 3
            { textBoxes := [newBox 1], selectedBox := some 2,
              history := [[newBox 1], [newBox 1, newBox 2]], historyIndex := 0 })) ∧
    (boxIds (addTextBox 3
        { textBoxes := [newBox 1], selectedBox := some 2,
          history := [[newBox 1], [newBox 1, newBox 2]], historyIndex := 0 }).textBoxes).Nodup :=
  ⟨⟨by decide, by decide⟩,
    boxIds_nodup_of_distinct_clocks [.addTextBox 1, .addTextBox 2, .undo, .addTextBox 3]
      _ (by decide) (by decide)⟩

end TextEditor
